import Mathlib

/-!
Verification development for the golf swing analysis core.

The embedding follows two TypeScript modules:
* the swing interval detector and metrics analyzer (utils/swingAnalysis),
  whose numeric work is exact rational arithmetic plus square roots that are
  only ever compared; we keep the squared values in the computable layer and
  connect them to the real square roots through explicit lemmas, and
* the club detection pipeline (utils/clubDetection.ts), whose angles are
  genuine real numbers (atan2, sigmoid), embedded with noncomputable reals.

JavaScript double arithmetic is idealized as exact arithmetic on the
corresponding rationals and reals. Math.atan2 is embedded as the argument of
a complex number, which agrees with the JavaScript function away from signed
zeros. The JS falsy-coalescing operator on numbers is modelled for the
non-NaN case.
-/

namespace Golf

/-- JS expression x or-else y on numbers: x is falsy exactly when it is 0
(NaN is not modelled). -/
def jsOrQ (x y : ℚ) : ℚ := if x = 0 then y else x

/-- Math.round on an exact rational: nearest integer, halves toward plus
infinity. -/
def jsRoundQ (q : ℚ) : ℤ := ⌊q + 1/2⌋

/-- Math.round on a real number. -/
noncomputable def jsRoundR (x : ℝ) : ℤ := ⌊x + 1/2⌋

/-- Math.round(q * 10) / 10 as used for one-decimal reporting. -/
def round10Q (q : ℚ) : ℚ := (jsRoundQ (q * 10) : ℚ) / 10

/-- Math.round(x * 10) / 10 on reals. -/
noncomputable def round10R (x : ℝ) : ℝ := (jsRoundR (x * 10) : ℝ) / 10

/-- Math.atan2(y, x), embedded as the principal argument of x + y i, with
values in the interval (-pi, pi]. -/
noncomputable def atan2 (y x : ℝ) : ℝ := Complex.arg ⟨x, y⟩

/-- The logistic sigmoid used by the mask decoder. -/
noncomputable def sigmoid (x : ℝ) : ℝ := 1 / (1 + Real.exp (-x))

/-- The wraparound adjustment applied to an angular difference, lines
379-381 of clubDetection.ts: if (d > 180) d -= 360; if (d < -180) d += 360.
The two source conditionals can never both fire, so the chained conditional
here is exactly equivalent. -/
noncomputable def wrapDelta (d : ℝ) : ℝ :=
  if 180 < d then d - 360 else if d < -180 then d + 360 else d

/-- Renormalization of an angle into [-180, 180], lines 373-374 and 385-386
of clubDetection.ts (same two-conditional pattern as wrapDelta). -/
noncomputable def normalizeAngle (a : ℝ) : ℝ :=
  if 180 < a then a - 360 else if a < -180 then a + 360 else a

/-- Wraparound-aware angular distance between two angle values given in the
[-180, 180] representation. -/
noncomputable def angDist (a b : ℝ) : ℝ := |wrapDelta (a - b)|

/-- A MediaPipe pose landmark in normalized coordinates
(types/swing.ts, PoseLandmark). -/
structure PoseLandmark where
  x : ℚ
  y : ℚ
  z : ℚ
  visibility : Option ℚ
deriving DecidableEq

instance : Inhabited PoseLandmark := ⟨⟨0, 0, 0, none⟩⟩

/-- One timestamped snapshot of tracked landmarks
(types/swing.ts, PoseFrame). -/
structure PoseFrame where
  timestamp : ℚ
  landmarks : List PoseLandmark
deriving DecidableEq

instance : Inhabited PoseFrame := ⟨⟨0, []⟩⟩

/-- The detected swing window in milliseconds. The source field named end is
renamed stop here because end is a Lean keyword. -/
structure SwingInterval where
  start : ℚ
  stop : ℚ
deriving DecidableEq

/-- Square of the per-step landmark velocity of calculateVelocity: the
source returns Math.sqrt of this quantity, and every consumer only compares
velocities, so the exact square is kept in the computable layer. -/
def calculateVelocitySq (prev curr : PoseLandmark) : ℚ :=
  (curr.x - prev.x) ^ 2 + (curr.y - prev.y) ^ 2

/-- calculateVelocity of swingAnalysis: Euclidean distance between
consecutive positions of one landmark in normalized coordinates. -/
noncomputable def calculateVelocity (prev curr : PoseLandmark) : ℝ :=
  Real.sqrt (calculateVelocitySq prev curr)

/-- One step of the velocity series of detectSwingInterval (lines 118-126):
the right wrist (landmark index 16) velocity, or 0 if the landmark is
missing on either side of the step. Squared representation. -/
def stepVelocitySq (prev curr : PoseFrame) : ℚ :=
  match prev.landmarks.get? 16, curr.landmarks.get? 16 with
  | some p, some c => calculateVelocitySq p c
  | _, _ => 0

/-- The velocity series of detectSwingInterval: entry k is the step from
frame k to frame k+1 (the source loop index i corresponds to k+1). -/
def velocitiesSq (frames : List PoseFrame) : List ℚ :=
  List.zipWith stepVelocitySq frames frames.tail

/-- The real (non-squared) velocity value at step k of the series. -/
noncomputable def velocityAt (frames : List PoseFrame) (k : ℕ) : ℝ :=
  Real.sqrt ((velocitiesSq frames).getD k 0)

/-- Loop body of the maximum velocity scan: walks the remaining series with
the current index n and accumulator (best value, best index). -/
def maxVelGo : List ℚ → ℕ → ℚ × ℕ → ℚ × ℕ
  | [], _, acc => acc
  | v :: rest, n, acc => maxVelGo rest (n + 1) (if acc.1 < v then (v, n) else acc)

/-- The maximum velocity scan of detectSwingInterval, lines 128-136:
maxVel starts at 0, maxVelIndex at 0, and both update on a strictly larger
value. Works on the squared series; squaring is strictly monotone on the
nonnegative velocities, so the comparisons agree with the source. -/
def maxVelFold (vels : List ℚ) : ℚ × ℕ := maxVelGo vels 0 (0, 0)

/-- The (squared) maximum velocity of the series. -/
def maxVelSqOf (vels : List ℚ) : ℚ := (maxVelFold vels).1

/-- The impact proxy index: index of the maximum velocity. -/
def maxVelIndexOf (vels : List ℚ) : ℕ := (maxVelFold vels).2

/-- Squared form of ACTIVITY_THRESHOLD = maxVel * 0.08 (line 139): squaring
both sides of each nonnegative comparison keeps it exact. -/
def activityThresholdSq (vels : List ℚ) : ℚ := maxVelSqOf vels * (2/25) ^ 2

/-- Backward stability run of lines 145-152: every existing step among the
3 preceding ones is at or below the threshold. -/
def stableBack (vels : List ℚ) (T : ℚ) (i : ℕ) : Prop :=
  ∀ j < 3, j + 1 ≤ i → vels.getD (i - (j + 1)) 0 ≤ T

instance (vels : List ℚ) (T : ℚ) (i : ℕ) : Decidable (stableBack vels T i) :=
  Nat.decidableBallLT 3 _

/-- Forward stability run of lines 165-171: every existing step among the
5 following ones is at or below the threshold. -/
def stableFwd (vels : List ℚ) (T : ℚ) (i : ℕ) : Prop :=
  ∀ j < 5, i + (j + 1) < vels.length → vels.getD (i + (j + 1)) 0 ≤ T

instance (vels : List ℚ) (T : ℚ) (i : ℕ) : Decidable (stableFwd vels T i) :=
  Nat.decidableBallLT 5 _

/-- Backward scan for the address boundary, lines 142-159: walk down from
the impact index; at the first stable low-velocity index i the start index
becomes max(0, i - 15) (natural subtraction); if none is found the start
index keeps its default 0. -/
def scanBack (vels : List ℚ) (T : ℚ) : ℕ → ℕ
  | 0 => if vels.getD 0 0 < T ∧ stableBack vels T 0 then 0 - 15 else 0
  | i + 1 =>
    if vels.getD (i + 1) 0 < T ∧ stableBack vels T (i + 1) then (i + 1) - 15
    else scanBack vels T i

/-- Forward scan helper: fuel bounds the remaining loop iterations. -/
def scanFwdAux (vels : List ℚ) (T : ℚ) (lastIdx : ℕ) : ℕ → ℕ → ℕ
  | 0, _ => lastIdx
  | fuel + 1, i =>
    if vels.getD i 0 < T ∧ stableFwd vels T i then min lastIdx (i + 20)
    else scanFwdAux vels T lastIdx fuel (i + 1)

/-- Forward scan for the finish boundary, lines 161-177: walk up from the
impact index; at the first stable low-velocity index i the end index becomes
min(lastIdx, i + 20); if none is found it keeps its default lastIdx. -/
def scanFwd (vels : List ℚ) (T : ℚ) (lastIdx start : ℕ) : ℕ :=
  scanFwdAux vels T lastIdx (vels.length - start) start

/-- The start index produced by the natural backward scan. -/
def scanStartOf (frames : List PoseFrame) : ℕ :=
  scanBack (velocitiesSq frames) (activityThresholdSq (velocitiesSq frames))
    (maxVelIndexOf (velocitiesSq frames))

/-- The end index produced by the natural forward scan. -/
def scanEndOf (frames : List PoseFrame) : ℕ :=
  scanFwd (velocitiesSq frames) (activityThresholdSq (velocitiesSq frames))
    (frames.length - 1) (maxVelIndexOf (velocitiesSq frames))

/-- Index-level result (maxVelIndex, startIndex, endIndex) of
detectSwingInterval including the safety check of lines 179-183: if the scan
window is shorter than 30 steps, force the symmetric 45-step window around
the impact index, clipped to the buffer. -/
def detectSwingIndices (frames : List PoseFrame) : ℕ × ℕ × ℕ :=
  let m := maxVelIndexOf (velocitiesSq frames)
  if scanEndOf frames < scanStartOf frames + 30 then
    (m, m - 45, min (frames.length - 1) (m + 45))
  else
    (m, scanStartOf frames, scanEndOf frames)

/-- Timestamp mapping for the start index, line 185:
frames[startIndex]?.timestamp or-else 0. -/
def tsStartAt (frames : List PoseFrame) (i : ℕ) : ℚ :=
  match frames.get? i with
  | some f => jsOrQ f.timestamp 0
  | none => 0

/-- Timestamp mapping for the end index, line 186:
frames[endIndex]?.timestamp or-else the last timestamp. -/
def tsEndAt (frames : List PoseFrame) (i : ℕ) : ℚ :=
  match frames.get? i with
  | some f => jsOrQ f.timestamp ((frames.getLast?).elim 0 PoseFrame.timestamp)
  | none => (frames.getLast?).elim 0 PoseFrame.timestamp

/-- detectSwingInterval, lines 111-191: fewer than 10 frames yields the
whole-range default; otherwise the scanned (or safety-forced) indices are
mapped to their timestamps. -/
def detectSwingInterval (frames : List PoseFrame) : SwingInterval :=
  if frames.length < 10 then
    { start := 0, stop := (frames.getLast?).elim 0 fun f => jsOrQ f.timestamp 0 }
  else
    { start := tsStartAt frames (detectSwingIndices frames).2.1,
      stop := tsEndAt frames (detectSwingIndices frames).2.2 }

/-- calculateSpineAngle (lines 35-59): torso lean from vertical in degrees,
or 0 for a landmark list with fewer than 25 entries. Landmark indices 11/12
are the shoulders and 23/24 the hips. -/
noncomputable def calculateSpineAngle (landmarks : List PoseLandmark) : ℝ :=
  if landmarks.length < 25 then 0
  else
    let shoulderMidX := ((landmarks.getD 11 default).x + (landmarks.getD 12 default).x) / 2
    let shoulderMidY := ((landmarks.getD 11 default).y + (landmarks.getD 12 default).y) / 2
    let hipMidX := ((landmarks.getD 23 default).x + (landmarks.getD 24 default).x) / 2
    let hipMidY := ((landmarks.getD 23 default).y + (landmarks.getD 24 default).y) / 2
    let dx : ℚ := shoulderMidX - hipMidX
    let dy : ℚ := hipMidY - shoulderMidY
    atan2 (dx : ℝ) (dy : ℝ) * (180 / Real.pi)

/-- calculateHeadPosition (lines 64-72): the nose landmark, or the origin
for an empty landmark list. -/
def calculateHeadPosition (landmarks : List PoseLandmark) : ℚ × ℚ :=
  if landmarks.length < 1 then (0, 0)
  else ((landmarks.getD 0 default).x, (landmarks.getD 0 default).y)

/-- calculateHeadMovement (lines 78-89): absolute lateral and vertical
displacement of the nose between two landmark lists. -/
def calculateHeadMovement (initialLandmarks currentLandmarks : List PoseLandmark) :
    ℚ × ℚ :=
  let initial := calculateHeadPosition initialLandmarks
  let current := calculateHeadPosition currentLandmarks
  (|current.1 - initial.1|, |current.2 - initial.2|)

/-- Squared arm extension (left wrist 15 to left shoulder 11) used by the
impact-frame search of analyzeSwing (lines 222-229); the source compares
Math.sqrt of this, and squaring is strictly monotone on the nonnegative
distances. -/
def armDistanceSq (lms : List PoseLandmark) : ℚ :=
  ((lms.getD 15 default).x - (lms.getD 11 default).x) ^ 2 +
    ((lms.getD 15 default).y - (lms.getD 11 default).y) ^ 2

/-- Loop body of the impact frame search. -/
def impactGo : List PoseFrame → ℕ → ℚ × ℕ → ℚ × ℕ
  | [], _, acc => acc
  | f :: rest, n, acc =>
    impactGo rest (n + 1)
      (if f.landmarks.length < 25 then acc
       else if acc.1 < armDistanceSq f.landmarks then (armDistanceSq f.landmarks, n)
       else acc)

/-- Impact frame search of analyzeSwing (lines 213-236): index of the frame
maximizing arm extension, skipping frames with fewer than 25 landmarks;
defaults to 0. -/
def impactFrameIndex (afs : List PoseFrame) : ℕ :=
  (impactGo afs 0 ((0 : ℚ), (0 : ℕ))).2

/-- Frame selection of analyzeSwing (lines 200-206): frames inside the
detected interval, or the whole sequence if fewer than 6 remain. -/
def analysisFrames (frames : List PoseFrame) : List PoseFrame :=
  let interval := detectSwingInterval frames
  let swingFrames := frames.filter fun f =>
    interval.start ≤ f.timestamp ∧ f.timestamp ≤ interval.stop
  if 5 < swingFrames.length then swingFrames else frames

/-- Reported spine angles in degrees (types/swing.ts, SwingMetrics). -/
structure SpineAngleMetrics where
  address : ℝ
  impact : ℝ
  change : ℝ

/-- Reported head movement in approximate centimeters. -/
structure HeadMovementMetrics where
  lateral : ℚ
  vertical : ℚ

/-- The swing metrics record (types/swing.ts, SwingMetrics). -/
structure SwingMetrics where
  spineAngle : SpineAngleMetrics
  headMovement : HeadMovementMetrics
  swingInterval : SwingInterval

/-- analyzeSwing (lines 193-272): none for fewer than 2 frames, otherwise
spine angles at the address and impact frames, maximum head movement scaled
by pixelToCm = 100 / 0.5 = 200, all rounded to one decimal place. -/
noncomputable def analyzeSwing (frames : List PoseFrame) : Option SwingMetrics :=
  if frames.length < 2 then none
  else
    let interval := detectSwingInterval frames
    let afs := analysisFrames frames
    let addressFrame := afs.headI
    let impactFrame := afs.getD (impactFrameIndex afs) default
    let addressSpineAngle := calculateSpineAngle addressFrame.landmarks
    let impactSpineAngle := calculateSpineAngle impactFrame.landmarks
    let maxLateralMovement := (afs.map fun f =>
      (calculateHeadMovement addressFrame.landmarks f.landmarks).1).foldl max 0
    let maxVerticalMovement := (afs.map fun f =>
      (calculateHeadMovement addressFrame.landmarks f.landmarks).2).foldl max 0
    some
      { spineAngle :=
          { address := round10R addressSpineAngle
            impact := round10R impactSpineAngle
            change := round10R (impactSpineAngle - addressSpineAngle) }
        headMovement :=
          { lateral := round10Q (maxLateralMovement * 200)
            vertical := round10Q (maxVerticalMovement * 200) }
        swingInterval := interval }

/-- A detection box [x1, y1, x2, y2] in model input space (320 x 320). -/
structure Box where
  x1 : ℚ
  y1 : ℚ
  x2 : ℚ
  y2 : ℚ
deriving DecidableEq

/-- A per-class best detection candidate of detectClub (lines 150-189):
confidence score, decoded box, and the 32 mask coefficients. The anchor
scan that produces it consumes raw model output, so the candidate is taken
as input here. -/
structure Detection where
  score : ℚ
  box : Box
  maskCoeffs : List ℚ
deriving DecidableEq

/-- The per-frame club estimate (interface ClubData, declared in the types
module and reconstructed here from its construction sites in
clubDetection.ts): angle in degrees, confidence score, and a normalized
debug point. -/
structure ClubData where
  angle : ℝ
  score : ℚ
  debugPoint : ℝ × ℝ

/-- An integer pixel box. -/
structure IBox where
  x1 : ℤ
  y1 : ℤ
  x2 : ℤ
  y2 : ℤ
deriving DecidableEq

/-- Box clipping and rounding of processMask (lines 298-301), with
MODEL_INPUT_SIZE = 320. -/
def roundedBox (b : Box) : IBox :=
  { x1 := jsRoundQ (max 0 b.x1)
    y1 := jsRoundQ (max 0 b.y1)
    x2 := jsRoundQ (min 320 b.x2)
    y2 := jsRoundQ (min 320 b.y2) }

/-- Mask logit at a prototype cell (lines 317-322): dot product of the 32
mask coefficients with the flattened prototype tensor at channel stride
mh * mw. Out-of-range reads return 0, matching a well-formed tensor. -/
def maskSum (coeffs proto : List ℚ) (mh mw my mx : ℕ) : ℚ :=
  ((List.range 32).map fun i =>
    coeffs.getD i 0 * proto.getD (i * (mh * mw) + my * mw + mx) 0).sum

/-- Foreground pixel decoding of processMask (lines 305-332): every integer
pixel of the rounded box is mapped into the mh x mw prototype grid, its
sigmoid logit is compared with MASK_THRESHOLD = 0.2, and foreground pixels
are mapped back to source-frame coordinates through the letterbox scale and
padding. -/
noncomputable def decodeMaskPixels (detection : Detection) (proto : List ℚ)
    (mh mw : ℕ) (scale xPadding yPadding : ℚ) : List (ℚ × ℚ) :=
  let rb := roundedBox detection.box
  (List.range (rb.y2 - rb.y1).toNat).flatMap fun dy =>
    (List.range (rb.x2 - rb.x1).toNat).filterMap fun dx =>
      let x : ℤ := rb.x1 + dx
      let y : ℤ := rb.y1 + dy
      let mx : ℤ := ⌊(x : ℚ) * ((mw : ℚ) / 320)⌋
      let my : ℤ := ⌊(y : ℚ) * ((mh : ℚ) / 320)⌋
      if (mw : ℤ) ≤ mx ∨ (mh : ℤ) ≤ my then none
      else
        let s := maskSum detection.maskCoeffs proto mh mw my.toNat mx.toNat
        if (1/5 : ℝ) < sigmoid (s : ℝ) then
          some (((x : ℚ) - xPadding) / scale, ((y : ℚ) - yPadding) / scale)
        else none

/-- Mean x coordinate of a point list (computePCA step 1). -/
noncomputable def meanX (points : List (ℝ × ℝ)) : ℝ :=
  (points.map Prod.fst).sum / points.length

/-- Mean y coordinate of a point list. -/
noncomputable def meanY (points : List (ℝ × ℝ)) : ℝ :=
  (points.map Prod.snd).sum / points.length

/-- Covariance entry cov(x, x) of computePCA (lines 464-476). -/
noncomputable def covXX (points : List (ℝ × ℝ)) : ℝ :=
  (points.map fun p => (p.1 - meanX points) ^ 2).sum / points.length

/-- Covariance entry cov(x, y). -/
noncomputable def covXY (points : List (ℝ × ℝ)) : ℝ :=
  (points.map fun p => (p.1 - meanX points) * (p.2 - meanY points)).sum / points.length

/-- Covariance entry cov(y, y). -/
noncomputable def covYY (points : List (ℝ × ℝ)) : ℝ :=
  (points.map fun p => (p.2 - meanY points) ^ 2).sum / points.length

/-- The covariance direction vector (cov_xx - cov_yy) + (2 cov_xy) i whose
argument is twice the principal axis angle; the set is called anisotropic
when this vector is nonzero. -/
noncomputable def covVec (points : List (ℝ × ℝ)) : ℂ :=
  ⟨covXX points - covYY points, 2 * covXY points⟩

/-- computePCA (lines 449-492): principal axis angle in radians,
0.5 * atan2(2 cov_xy, cov_xx - cov_yy), together with the centroid; the
empty list yields angle 0 and center (0, 0). -/
noncomputable def computePCA (points : List (ℝ × ℝ)) : ℝ × (ℝ × ℝ) :=
  if points.length = 0 then (0, (0, 0))
  else
    (0.5 * atan2 (2 * covXY points) (covXX points - covYY points),
      (meanX points, meanY points))

/-- processShaftFallback (lines 223-276): hands midpoint in video
coordinates, box corners mapped through the letterbox inverse, the corner
farthest from the hands, and the angle of the hands-to-corner vector in
degrees; null when the landmark list has no entry past index 16. The
corner distances are compared through Math.sqrt in the source, embedded
here with Real.sqrt. -/
noncomputable def processShaftFallback (detection : Detection)
    (videoW videoH : ℚ) (landmarks : List PoseLandmark)
    (scale xPadding yPadding : ℚ) : Option ClubData :=
  if landmarks.length ≤ 16 then none
  else
    let leftWrist := landmarks.getD 15 default
    let rightWrist := landmarks.getD 16 default
    let handX : ℚ := (leftWrist.x + rightWrist.x) / 2 * videoW
    let handY : ℚ := (leftWrist.y + rightWrist.y) / 2 * videoH
    let b := detection.box
    let corners : List (ℚ × ℚ) :=
      [((b.x1 - xPadding) / scale, (b.y1 - yPadding) / scale),
       ((b.x2 - xPadding) / scale, (b.y1 - yPadding) / scale),
       ((b.x2 - xPadding) / scale, (b.y2 - yPadding) / scale),
       ((b.x1 - xPadding) / scale, (b.y2 - yPadding) / scale)]
    let pick := corners.foldl
      (fun (acc : ℝ × ℚ × ℚ) p =>
        let dist := Real.sqrt ((((p.1 - handX : ℚ)) : ℝ) ^ 2 + (((p.2 - handY : ℚ)) : ℝ) ^ 2)
        if acc.1 < dist then (dist, p) else acc)
      ((-1 : ℝ), corners.headI)
    let furthestCorner := pick.2
    let vecX : ℚ := furthestCorner.1 - handX
    let vecY : ℚ := furthestCorner.2 - handY
    let angle := atan2 (vecY : ℝ) (vecX : ℝ) * (180 / Real.pi)
    some
      { angle := angle
        score := detection.score * (4/5)
        debugPoint := (((furthestCorner.1 / videoW : ℚ) : ℝ), ((furthestCorner.2 / videoH : ℚ) : ℝ)) }

/-- One EMA blending step of processMask (lines 378-387) for a known
previous angle: shortest wraparound delta, blend with new-sample weight
SMOOTHING_FACTOR = 0.3, renormalize. -/
noncomputable def smoothStep (lastA raw : ℝ) : ℝ :=
  normalizeAngle (lastA + wrapDelta (raw - lastA) * (3/10))

/-- The smoothing block of processMask (lines 377-388) as a function of the
lastAngle module state: no previous angle passes the new angle through. -/
noncomputable def emaUpdate (lastAngle : Option ℝ) (finalAngle : ℝ) : ℝ :=
  match lastAngle with
  | none => finalAngle
  | some la => smoothStep la finalAngle

/-- processMask (lines 281-398) with the lastAngle module state threaded
explicitly: returns the emitted estimate (if any) and the state after the
call. Early null returns (empty rounded box, missing wrist landmarks, or a
decoded mask with fewer than 3 foreground pixels) leave the state
untouched; a successful emission stores the emitted angle. -/
noncomputable def processMask (detection : Detection) (proto : List ℚ)
    (mh mw : ℕ) (scale xPadding yPadding : ℚ) (landmarks : List PoseLandmark)
    (videoW videoH : ℚ) (lastAngle : Option ℝ) :
    Option ClubData × Option ℝ :=
  let rb := roundedBox detection.box
  if rb.x2 ≤ rb.x1 ∨ rb.y2 ≤ rb.y1 then (none, lastAngle)
  else
    let maskPixels := decodeMaskPixels detection proto mh mw scale xPadding yPadding
    if landmarks.length ≤ 16 then (none, lastAngle)
    else
      let leftWrist := landmarks.getD 15 default
      let rightWrist := landmarks.getD 16 default
      let hX : ℚ := (leftWrist.x + rightWrist.x) / 2 * videoW
      let hY : ℚ := (leftWrist.y + rightWrist.y) / 2 * videoH
      if maskPixels.length < 3 then (none, lastAngle)
      else
        let pca := computePCA (maskPixels.map fun p => ((p.1 : ℝ), (p.2 : ℝ)))
        let center := pca.2
        let rawAngle := pca.1 * (180 / Real.pi)
        let finalAngle1 :=
          if 16 < landmarks.length then
            let vecX := center.1 - (hX : ℝ)
            let vecY := center.2 - (hY : ℝ)
            let vecAngle := atan2 vecY vecX * (180 / Real.pi)
            let diff0 := |rawAngle - vecAngle|
            let diff := if 180 < diff0 then 360 - diff0 else diff0
            normalizeAngle (if 90 < diff then rawAngle + 180 else rawAngle)
          else rawAngle
        let finalAngle2 := emaUpdate lastAngle finalAngle1
        (some
          { angle := finalAngle2
            score := detection.score
            debugPoint := (center.1 / (videoW : ℝ), center.2 / (videoH : ℝ)) },
          some finalAngle2)

/-- The detection cascade of detectClub (lines 191-214) downstream of the
per-class top-1 selection: try the head detection through processMask; if it
yields no estimate (or no head detection passed the threshold), fall back to
the shaft detection; otherwise emit nothing. The lastAngle state is
threaded through unchanged on every path that does not emit a head
estimate. -/
noncomputable def detectClubCore (headDetection shaftDetection : Option Detection)
    (proto : List ℚ) (mh mw : ℕ) (scale xPadding yPadding : ℚ)
    (landmarks : List PoseLandmark) (videoW videoH : ℚ) (lastAngle : Option ℝ) :
    Option ClubData × Option ℝ :=
  match headDetection with
  | some hd =>
    let r := processMask hd proto mh mw scale xPadding yPadding landmarks videoW videoH lastAngle
    match r.1 with
    | some res => (some res, r.2)
    | none =>
      match shaftDetection with
      | some sd => (processShaftFallback sd videoW videoH landmarks scale xPadding yPadding, r.2)
      | none => (none, r.2)
  | none =>
    match shaftDetection with
    | some sd => (processShaftFallback sd videoW videoH landmarks scale xPadding yPadding, lastAngle)
    | none => (none, lastAngle)

/-- Translation of a 2D point by a fixed vector (for the PCA invariance
statements). -/
def translatePt (v p : ℝ × ℝ) : ℝ × ℝ := (p.1 + v.1, p.2 + v.2)

/-- Rotation of a 2D point about a center, the rotation given by a unit
vector (c, s) = (cos θ, sin θ). -/
def rotatePtAbout (c s : ℝ) (ctr p : ℝ × ℝ) : ℝ × ℝ :=
  (ctr.1 + c * (p.1 - ctr.1) - s * (p.2 - ctr.2),
   ctr.2 + s * (p.1 - ctr.1) + c * (p.2 - ctr.2))

/-- Ten landmark-free frames: every velocity step is 0 because the wrist
landmark is absent, so the whole velocity series is literally zero. -/
def cFrames10 : List PoseFrame :=
  [⟨0, []⟩, ⟨100, []⟩, ⟨200, []⟩, ⟨300, []⟩, ⟨400, []⟩,
   ⟨500, []⟩, ⟨600, []⟩, ⟨700, []⟩, ⟨800, []⟩, ⟨900, []⟩]

/-- Three landmark-free frames. -/
def frames3 : List PoseFrame := [⟨10, []⟩, ⟨20, []⟩, ⟨30, []⟩]

/-- Six landmark-free frames with timestamps 0 through 5. -/
def frames6 : List PoseFrame :=
  [⟨0, []⟩, ⟨1, []⟩, ⟨2, []⟩, ⟨3, []⟩, ⟨4, []⟩, ⟨5, []⟩]

/-- A head detection whose rounded box is empty, so its decoded mask has no
foreground pixels. -/
def hd0 : Detection := ⟨1/2, ⟨0, 0, 0, 0⟩, []⟩

/-- A head detection with a nonempty box (used where the box never gets
decoded). -/
def hd1 : Detection := ⟨1/2, ⟨0, 0, 5, 5⟩, []⟩

/-- Seventeen origin landmarks: the smallest landmark list that passes the
wrist guard (indices 0 through 16 all present). -/
def lms17 : List PoseLandmark := List.replicate 17 ⟨0, 0, 0, none⟩

/-- A single point at the origin. -/
def pts1 : List (ℝ × ℝ) := [(0, 0)]

/-- Two points on the x axis. -/
def pts2 : List (ℝ × ℝ) := [(0, 0), (1, 0)]

/-- Every step velocity square is nonnegative. -/
theorem stepVelocitySq_nonneg (prev curr : PoseFrame) : 0 ≤ stepVelocitySq prev curr := by
  unfold stepVelocitySq
  rcases prev.landmarks.get? 16 with _ | p
  all_goals rcases curr.landmarks.get? 16 with _ | c
  all_goals simp [calculateVelocitySq]
  all_goals positivity

/-- Every entry read from the squared velocity series is nonnegative. -/
theorem velocitiesSq_getD_nonneg (frames : List PoseFrame) (k : ℕ) :
    0 ≤ (velocitiesSq frames).getD k 0 := by
  by_cases h : k < (velocitiesSq frames).length
  · rw [List.getD_eq_getElem _ _ h]
    unfold velocitiesSq
    rw [List.getElem_zipWith]
    exact stepVelocitySq_nonneg _ _
  · rw [List.getD_eq_default _ _ (le_of_not_lt h)]

/-- Length of the velocity series: one less than the frame count. -/
theorem velocitiesSq_length (frames : List PoseFrame) :
    (velocitiesSq frames).length = frames.length - 1 := by
  simp [velocitiesSq]

/-- When no velocity is below the threshold the forward scan runs out of
fuel and keeps the default end index. -/
theorem scanFwdAux_no_hit (vels : List ℚ) (T : ℚ) (lastIdx : ℕ)
    (h : ∀ i, ¬ vels.getD i 0 < T) :
    ∀ fuel i, scanFwdAux vels T lastIdx fuel i = lastIdx := by
  intro fuel
  induction fuel with
  | zero => intro i; rfl
  | succ n ih =>
    intro i
    rw [scanFwdAux, if_neg fun hc => h i hc.1]
    exact ih (i + 1)

/-- Full characterization of the maximum velocity loop: the accumulator
never decreases, the result dominates every list entry, and the result is
either the untouched accumulator or the value and absolute index of the
first entry realizing the final maximum. -/
theorem maxVelGo_spec (l : List ℚ) : ∀ (n : ℕ) (acc : ℚ × ℕ),
    acc.1 ≤ (maxVelGo l n acc).1 ∧
    (∀ j < l.length, l.getD j 0 ≤ (maxVelGo l n acc).1) ∧
    (maxVelGo l n acc = acc ∨
      ∃ j, j < l.length ∧ maxVelGo l n acc = (l.getD j 0, n + j) ∧
        acc.1 < l.getD j 0 ∧ ∀ i < j, l.getD i 0 < l.getD j 0) := by
  induction l with
  | nil =>
    intro n acc
    refine ⟨le_refl _, ?_, Or.inl rfl⟩
    intro j hj
    exact absurd hj (by simp)
  | cons v rest ih =>
    intro n acc
    rw [maxVelGo]
    rcases ih (n + 1) (if acc.1 < v then (v, n) else acc) with ⟨ih1, ih2, ih3⟩
    have hacc : acc.1 ≤ (if acc.1 < v then (v, n) else acc).1 := by
      split <;> simp_all [le_of_lt]
    have hv : v ≤ (if acc.1 < v then (v, n) else acc).1 := by
      split
      · simp
      · simpa using le_of_not_lt (by assumption)
    refine ⟨le_trans hacc ih1, ?_, ?_⟩
    · intro j hj
      match j with
      | 0 => simpa using le_trans hv ih1
      | j' + 1 =>
        simpa using ih2 j' (by simpa using hj)
    · rcases ih3 with heq | ⟨j', hj', hres, hlt, hleast⟩
      · by_cases hc : acc.1 < v
        · right
          refine ⟨0, by simp, ?_, by simpa using hc, by simp⟩
          rw [heq, if_pos hc]
          simp
        · left
          rw [heq, if_neg hc]
      · right
        refine ⟨j' + 1, by simpa using hj', ?_, ?_, ?_⟩
        · rw [hres]
          have h1 : (v :: rest).getD (j' + 1) 0 = rest.getD j' 0 := by simp
          have h2 : n + (j' + 1) = n + 1 + j' := by omega
          rw [h1, h2]
        · exact lt_of_le_of_lt hacc hlt
        · intro i hi
          match i with
          | 0 =>
            simp only [List.getD_cons_zero]
            exact lt_of_le_of_lt hv hlt
          | i' + 1 =>
            simpa using hleast i' (by omega)

/-- The impact proxy index stays inside a nonempty velocity series, and the
recorded maximum is the entry at that index. -/
theorem maxVelFold_mem (vels : List ℚ) (hne : 0 < vels.length)
    (hnn : ∀ k, 0 ≤ vels.getD k 0) :
    maxVelIndexOf vels < vels.length ∧
    maxVelSqOf vels = vels.getD (maxVelIndexOf vels) 0 ∧
    (∀ i < maxVelIndexOf vels, vels.getD i 0 < maxVelSqOf vels) := by
  rcases maxVelGo_spec vels 0 (0, 0) with ⟨-, hdom, hcase⟩
  unfold maxVelIndexOf maxVelSqOf maxVelFold
  rcases hcase with heq | ⟨j, hj, hres, -, hleast⟩
  · have h0 := hdom 0 hne
    rw [heq] at h0 ⊢
    have h00 : vels.getD 0 0 = 0 := le_antisymm (by simpa using h0) (hnn 0)
    refine ⟨hne, ?_, by simp⟩
    simpa using h00.symm
  · rw [hres]
    refine ⟨by simpa using hj, by simp, ?_⟩
    simpa using hleast

/-!  C3: interval for fewer than 10 frames. -/

/-- C3. For every pose-frame sequence with fewer than 10 frames, the
interval detector returns exactly the interval with start 0 and end equal
to the timestamp of the last frame (0 when that timestamp is absent or 0),
with no dependence on the velocity scan. -/
theorem short_sequence_interval (frames : List PoseFrame) (h : frames.length < 10) :
    detectSwingInterval frames =
      { start := 0, stop := (frames.getLast?).elim 0 PoseFrame.timestamp } := by
  rw [detectSwingInterval, if_pos h]
  rcases hl : frames.getLast? with _ | f
  · rfl
  · show SwingInterval.mk 0 (jsOrQ f.timestamp 0) = _
    unfold jsOrQ
    split
    · simp_all
    · rfl

/-- Witness for C3 at a concrete 3-frame sequence with last timestamp 30. -/
theorem short_sequence_interval_witness :
    frames3.length < 10 ∧ detectSwingInterval frames3 = { start := 0, stop := 30 } := by
  refine ⟨by decide, ?_⟩
  rw [short_sequence_interval frames3 (by decide)]
  decide

/-!  C1: the safety check of the interval detector. -/

/-- C1 (amended). For at least 10 frames, after the fallback safety check
the indices satisfy endIndex - startIndex >= min(30, lastIndex) — so the
advertised bound of 30 holds whenever the buffer has at least 31 frames,
but a shorter buffer caps the window at lastIndex; and whenever the natural
scan yields endIndex - startIndex < 30, the result is exactly the window
from max(0, maxVelIndex - 45) to min(lastIndex, maxVelIndex + 45) (natural
subtraction is the max with 0), mapped to those frames' timestamps through
the falsy-coalescing of lines 185-186. -/
theorem swing_indices_safety (frames : List PoseFrame) (h : 10 ≤ frames.length) :
    ((detectSwingIndices frames).2.1 + min 30 (frames.length - 1) ≤
      (detectSwingIndices frames).2.2) ∧
    (31 ≤ frames.length →
      (detectSwingIndices frames).2.1 + 30 ≤ (detectSwingIndices frames).2.2) ∧
    (scanEndOf frames < scanStartOf frames + 30 →
      (detectSwingIndices frames).2.1 = maxVelIndexOf (velocitiesSq frames) - 45 ∧
      (detectSwingIndices frames).2.2 =
        min (frames.length - 1) (maxVelIndexOf (velocitiesSq frames) + 45) ∧
      detectSwingInterval frames =
        { start := tsStartAt frames (maxVelIndexOf (velocitiesSq frames) - 45),
          stop := tsEndAt frames
            (min (frames.length - 1) (maxVelIndexOf (velocitiesSq frames) + 45)) }) := by
  have hlen : 0 < (velocitiesSq frames).length := by
    rw [velocitiesSq_length]; omega
  have hm : maxVelIndexOf (velocitiesSq frames) < (velocitiesSq frames).length :=
    (maxVelFold_mem _ hlen (velocitiesSq_getD_nonneg frames)).1
  rw [velocitiesSq_length] at hm
  by_cases hc : scanEndOf frames < scanStartOf frames + 30
  · have hidx : detectSwingIndices frames =
        (maxVelIndexOf (velocitiesSq frames),
         maxVelIndexOf (velocitiesSq frames) - 45,
         min (frames.length - 1) (maxVelIndexOf (velocitiesSq frames) + 45)) := by
      unfold detectSwingIndices
      rw [if_pos hc]
    rw [hidx]
    refine ⟨?_, fun h31 => ?_, fun _ => ⟨rfl, rfl, ?_⟩⟩
    · dsimp only
      omega
    · dsimp only
      omega
    · rw [detectSwingInterval, if_neg (by omega), hidx]
  · have hidx : detectSwingIndices frames =
        (maxVelIndexOf (velocitiesSq frames), scanStartOf frames, scanEndOf frames) := by
      unfold detectSwingIndices
      rw [if_neg hc]
    rw [hidx]
    refine ⟨?_, fun h31 => ?_, fun hcc => absurd hcc hc⟩
    · dsimp only
      omega
    · dsimp only
      omega

/-- Counterexample to C1 as frozen: ten frames with an all-zero velocity
series end with startIndex 0 and endIndex 9 even after the safety check, so
endIndex - startIndex = 9 < 30. -/
theorem swing_indices_safety_cex :
    10 ≤ cFrames10.length ∧
    (detectSwingIndices cFrames10).2.2 - (detectSwingIndices cFrames10).2.1 < 30 := by
  have hm : maxVelIndexOf (velocitiesSq cFrames10) = 0 := by decide
  have hms : maxVelSqOf (velocitiesSq cFrames10) = 0 := by decide
  have hT : activityThresholdSq (velocitiesSq cFrames10) = 0 := by
    rw [activityThresholdSq, hms, zero_mul]
  have hno : ∀ i, ¬ (velocitiesSq cFrames10).getD i 0 <
      activityThresholdSq (velocitiesSq cFrames10) := by
    intro i
    rw [hT]
    exact not_lt.2 (velocitiesSq_getD_nonneg _ i)
  have hS : scanStartOf cFrames10 = 0 := by
    rw [scanStartOf, hm, scanBack, if_neg fun hc => hno 0 hc.1]
  have hE : scanEndOf cFrames10 = 9 := by
    rw [scanEndOf, hm, scanFwd, scanFwdAux_no_hit _ _ _ hno]
    decide
  have hidx : detectSwingIndices cFrames10 = (0, 0, 9) := by
    unfold detectSwingIndices
    rw [if_pos (by rw [hS, hE]; omega), hm]
    decide
  rw [hidx]
  exact ⟨by decide, by decide⟩

/-- Witness for the amended C1 at the same concrete 10-frame input. -/
theorem swing_indices_safety_witness :
    10 ≤ cFrames10.length ∧
    (((detectSwingIndices cFrames10).2.1 + min 30 (cFrames10.length - 1) ≤
        (detectSwingIndices cFrames10).2.2) ∧
      (31 ≤ cFrames10.length →
        (detectSwingIndices cFrames10).2.1 + 30 ≤ (detectSwingIndices cFrames10).2.2) ∧
      (scanEndOf cFrames10 < scanStartOf cFrames10 + 30 →
        (detectSwingIndices cFrames10).2.1 = maxVelIndexOf (velocitiesSq cFrames10) - 45 ∧
        (detectSwingIndices cFrames10).2.2 =
          min (cFrames10.length - 1) (maxVelIndexOf (velocitiesSq cFrames10) + 45) ∧
        detectSwingInterval cFrames10 =
          { start := tsStartAt cFrames10 (maxVelIndexOf (velocitiesSq cFrames10) - 45),
            stop := tsEndAt cFrames10
              (min (cFrames10.length - 1) (maxVelIndexOf (velocitiesSq cFrames10) + 45)) })) :=
  ⟨by decide, swing_indices_safety cFrames10 (by decide)⟩

/-!  C2: the impact index is the argmax of the velocity series. -/

/-- C2. For at least 10 frames: the impact index of the detector is the
argmax of the velocity series — it lies inside the series, the velocity
there (the square root of the stored square) dominates every entry and
strictly dominates every earlier entry — and the series itself pairs
consecutive frames: entry k is the step velocity between frame k and frame
k + 1 (Euclidean wrist distance, 0 when the wrist landmark is missing). -/
theorem impact_index_argmax (frames : List PoseFrame) (h : 10 ≤ frames.length) :
    ((detectSwingIndices frames).1 = maxVelIndexOf (velocitiesSq frames)) ∧
    ((velocitiesSq frames).length = frames.length - 1) ∧
    (∀ k, k < (velocitiesSq frames).length →
      (velocitiesSq frames).getD k 0 =
        stepVelocitySq (frames.getD k default) (frames.getD (k + 1) default)) ∧
    (maxVelIndexOf (velocitiesSq frames) < (velocitiesSq frames).length) ∧
    (∀ j < (velocitiesSq frames).length,
      velocityAt frames j ≤ velocityAt frames (maxVelIndexOf (velocitiesSq frames))) ∧
    (∀ j < maxVelIndexOf (velocitiesSq frames),
      velocityAt frames j < velocityAt frames (maxVelIndexOf (velocitiesSq frames))) := by
  have hlen : 0 < (velocitiesSq frames).length := by
    rw [velocitiesSq_length]; omega
  obtain ⟨hmlt, hmax, hleast⟩ :=
    maxVelFold_mem _ hlen (velocitiesSq_getD_nonneg frames)
  have hdom : ∀ j < (velocitiesSq frames).length,
      (velocitiesSq frames).getD j 0 ≤ maxVelSqOf (velocitiesSq frames) := by
    intro j hj
    rcases (maxVelGo_spec (velocitiesSq frames) 0 (0, 0)).2.1 j hj with hle
    exact hle
  refine ⟨?_, velocitiesSq_length frames, ?_, hmlt, ?_, ?_⟩
  · unfold detectSwingIndices
    split <;> rfl
  · intro k hk
    have hk0 : k < frames.length - 1 := by
      rw [velocitiesSq_length] at hk; exact hk
    rw [List.getD_eq_getElem _ _ hk]
    unfold velocitiesSq
    rw [List.getElem_zipWith]
    have hk1 : k < frames.length := by omega
    rw [List.getElem_tail]
    rw [List.getD_eq_getElem frames default hk1,
        List.getD_eq_getElem frames default (by omega : k + 1 < frames.length)]
  · intro j hj
    unfold velocityAt
    have := hdom j hj
    rw [← hmax]
    exact Real.sqrt_le_sqrt (by exact_mod_cast this)
  · intro j hj
    unfold velocityAt
    have := hleast j hj
    rw [← hmax]
    exact Real.sqrt_lt_sqrt (by exact_mod_cast velocitiesSq_getD_nonneg frames j)
      (by exact_mod_cast this)

/-- Witness for C2 at the concrete 10-frame input. -/
theorem impact_index_argmax_witness :
    10 ≤ cFrames10.length ∧
    (∀ j < (velocitiesSq cFrames10).length,
      velocityAt cFrames10 j ≤ velocityAt cFrames10 (maxVelIndexOf (velocitiesSq cFrames10))) :=
  ⟨by decide, (impact_index_argmax cFrames10 (by decide)).2.2.2.2.1⟩

/-!  C10: spine angle defaults to 0 for short landmark lists. -/

/-- Rounding to one decimal maps 0 to 0. -/
theorem round10R_zero : round10R 0 = 0 := by
  unfold round10R jsRoundR
  rw [zero_mul, zero_add]
  have h : ⌊(1/2 : ℝ)⌋ = 0 := Int.floor_eq_iff.mpr (by norm_num)
  rw [h]
  norm_num

/-- C10. A landmark list with fewer than 25 entries yields spine angle
exactly 0, and consequently the metrics of analyzeSwing report a (rounded)
spine angle of 0 at the address frame or at the impact frame whenever that
frame has fewer than 25 landmarks, instead of skipping the frame or
failing. -/
theorem spine_angle_short_landmarks :
    (∀ lms : List PoseLandmark, lms.length < 25 → calculateSpineAngle lms = 0) ∧
    (∀ frames : List PoseFrame, 2 ≤ frames.length →
      ((analysisFrames frames).headI.landmarks.length < 25 →
        (analyzeSwing frames).map (fun m => m.spineAngle.address) = some 0) ∧
      (((analysisFrames frames).getD (impactFrameIndex (analysisFrames frames))
          default).landmarks.length < 25 →
        (analyzeSwing frames).map (fun m => m.spineAngle.impact) = some 0)) := by
  have hzero : ∀ lms : List PoseLandmark, lms.length < 25 → calculateSpineAngle lms = 0 := by
    intro lms h
    unfold calculateSpineAngle
    rw [if_pos h]
  refine ⟨hzero, ?_⟩
  intro frames h2
  constructor
  · intro hshort
    unfold analyzeSwing
    rw [if_neg (by omega)]
    dsimp only
    rw [hzero _ hshort, round10R_zero]
    rfl
  · intro hshort
    unfold analyzeSwing
    rw [if_neg (by omega)]
    dsimp only
    rw [hzero _ hshort, round10R_zero]
    rfl

/-- Witness for C10 at six landmark-free frames. -/
theorem spine_angle_short_landmarks_witness :
    (analysisFrames frames6).headI.landmarks.length < 25 ∧
    (analyzeSwing frames6).map (fun m => m.spineAngle.address) = some 0 :=
  ⟨by decide,
    (spine_angle_short_landmarks.2 frames6 (by decide)).1 (by decide)⟩

/-!  Helper bounds for the angle arithmetic of clubDetection. -/

/-- The wraparound adjustment lands in [-180, 180] for inputs within one
extra turn. -/
theorem wrapDelta_mem (d : ℝ) (h1 : -540 ≤ d) (h2 : d ≤ 540) :
    -180 ≤ wrapDelta d ∧ wrapDelta d ≤ 180 := by
  unfold wrapDelta
  split_ifs with ha hb
  · constructor <;> linarith
  · constructor <;> linarith
  · constructor <;> linarith

/-- The renormalization lands in [-180, 180] for inputs within one extra
turn. -/
theorem normalizeAngle_mem (a : ℝ) (h1 : -540 ≤ a) (h2 : a ≤ 540) :
    -180 ≤ normalizeAngle a ∧ normalizeAngle a ≤ 180 := by
  unfold normalizeAngle
  split_ifs with ha hb
  · constructor <;> linarith
  · constructor <;> linarith
  · constructor <;> linarith

/-- One smoothing step keeps the angle in [-180, 180]. -/
theorem smoothStep_mem (la raw : ℝ) (hla1 : -180 ≤ la) (hla2 : la ≤ 180)
    (hr1 : -180 ≤ raw) (hr2 : raw ≤ 180) :
    -180 ≤ smoothStep la raw ∧ smoothStep la raw ≤ 180 := by
  unfold smoothStep
  obtain ⟨w1, w2⟩ := wrapDelta_mem (raw - la) (by linarith) (by linarith)
  exact normalizeAngle_mem _ (by linarith) (by linarith)

/-- The EMA update keeps the angle in [-180, 180] whenever the state
satisfies the invariant and the incoming angle is in range. -/
theorem emaUpdate_mem (st : Option ℝ) (raw : ℝ)
    (hst : ∀ a ∈ st, -180 ≤ a ∧ a ≤ 180) (hr1 : -180 ≤ raw) (hr2 : raw ≤ 180) :
    -180 ≤ emaUpdate st raw ∧ emaUpdate st raw ≤ 180 := by
  cases st with
  | none => exact ⟨hr1, hr2⟩
  | some la =>
    obtain ⟨h1, h2⟩ := hst la rfl
    exact smoothStep_mem la raw h1 h2 hr1 hr2

/-- atan2 values are in (-pi, pi]. -/
theorem atan2_mem (y x : ℝ) : -Real.pi < atan2 y x ∧ atan2 y x ≤ Real.pi :=
  ⟨Complex.neg_pi_lt_arg _, Complex.arg_le_pi _⟩

/-- Degrees conversion of an atan2 value lands in (-180, 180]. -/
theorem atan2_deg_mem (y x : ℝ) :
    -180 < atan2 y x * (180 / Real.pi) ∧ atan2 y x * (180 / Real.pi) ≤ 180 := by
  obtain ⟨h1, h2⟩ := atan2_mem y x
  have hpi : (0 : ℝ) < Real.pi := Real.pi_pos
  have hs : (0 : ℝ) < 180 / Real.pi := by positivity
  constructor
  · have := mul_lt_mul_of_pos_right h1 hs
    calc (-180 : ℝ) = -Real.pi * (180 / Real.pi) := by field_simp; ring
    _ < atan2 y x * (180 / Real.pi) := this
  · have := mul_le_mul_of_nonneg_right h2 (le_of_lt hs)
    calc atan2 y x * (180 / Real.pi) ≤ Real.pi * (180 / Real.pi) := this
    _ = 180 := by field_simp

/-- The PCA angle is in (-pi/2, pi/2]. -/
theorem computePCA_fst_mem (points : List (ℝ × ℝ)) :
    -(Real.pi / 2) < (computePCA points).1 ∧ (computePCA points).1 ≤ Real.pi / 2 := by
  have hpi : (0 : ℝ) < Real.pi := Real.pi_pos
  unfold computePCA
  split_ifs with h
  · constructor <;> simp <;> linarith
  · obtain ⟨h1, h2⟩ := atan2_mem (2 * covXY points) (covXX points - covYY points)
    constructor
    · show -(Real.pi / 2) < 0.5 * atan2 _ _
      nlinarith
    · show 0.5 * atan2 _ _ ≤ Real.pi / 2
      nlinarith

/-- The PCA angle converted to degrees is in (-90, 90]. -/
theorem pca_deg_mem (points : List (ℝ × ℝ)) :
    -90 < (computePCA points).1 * (180 / Real.pi) ∧
    (computePCA points).1 * (180 / Real.pi) ≤ 90 := by
  obtain ⟨h1, h2⟩ := computePCA_fst_mem points
  have hpi : (0 : ℝ) < Real.pi := Real.pi_pos
  have hs : (0 : ℝ) < 180 / Real.pi := by positivity
  constructor
  · have := mul_lt_mul_of_pos_right h1 hs
    calc (-90 : ℝ) = -(Real.pi / 2) * (180 / Real.pi) := by field_simp; ring
    _ < (computePCA points).1 * (180 / Real.pi) := this
  · have := mul_le_mul_of_nonneg_right h2 (le_of_lt hs)
    calc (computePCA points).1 * (180 / Real.pi) ≤ Real.pi / 2 * (180 / Real.pi) := this
    _ = 90 := by field_simp; ring

/-- processMask yields no estimate and leaves the state unchanged when the
wrist landmarks are missing. -/
theorem processMask_none_of_short_landmarks (detection : Detection) (proto : List ℚ)
    (mh mw : ℕ) (scale xPadding yPadding : ℚ) (landmarks : List PoseLandmark)
    (videoW videoH : ℚ) (st : Option ℝ) (h : landmarks.length ≤ 16) :
    processMask detection proto mh mw scale xPadding yPadding landmarks videoW videoH st =
      (none, st) := by
  unfold processMask
  dsimp only
  split_ifs with h1 h2 h3
  any_goals rfl

/-- processShaftFallback yields no estimate when the wrist landmarks are
missing. -/
theorem processShaftFallback_none_of_short_landmarks (detection : Detection)
    (videoW videoH : ℚ) (landmarks : List PoseLandmark)
    (scale xPadding yPadding : ℚ) (h : landmarks.length ≤ 16) :
    processShaftFallback detection videoW videoH landmarks scale xPadding yPadding = none := by
  unfold processShaftFallback
  rw [if_pos h]

/-!  C7: a club estimate requires wrist and elbow landmarks. -/

/-- C7. On every path of the per-frame cascade (head mask and shaft
fallback), the result is absent whenever the landmark list has no entry
past index 16 — equivalently, whenever any of the wrist or elbow landmarks
13-16 is missing — never a zero-filled estimate. -/
theorem no_estimate_without_wrists (headDetection shaftDetection : Option Detection)
    (proto : List ℚ) (mh mw : ℕ) (scale xPadding yPadding : ℚ)
    (landmarks : List PoseLandmark) (videoW videoH : ℚ) (st : Option ℝ)
    (h : landmarks.length ≤ 16) :
    (detectClubCore headDetection shaftDetection proto mh mw scale xPadding yPadding
      landmarks videoW videoH st).1 = none := by
  cases headDetection with
  | none =>
    cases shaftDetection with
    | none => rfl
    | some sd =>
      show (processShaftFallback sd videoW videoH landmarks scale xPadding yPadding, st).1 = none
      simpa using processShaftFallback_none_of_short_landmarks sd videoW videoH landmarks
        scale xPadding yPadding h
  | some hd =>
    unfold detectClubCore
    dsimp only
    rw [processMask_none_of_short_landmarks hd proto mh mw scale xPadding yPadding
      landmarks videoW videoH st h]
    dsimp only
    cases shaftDetection with
    | none => rfl
    | some sd =>
      simpa using processShaftFallback_none_of_short_landmarks sd videoW videoH landmarks
        scale xPadding yPadding h

/-- Witness for C7 with an empty landmark list and both detections
present. -/
theorem no_estimate_without_wrists_witness :
    ([] : List PoseLandmark).length ≤ 16 ∧
    (detectClubCore (some hd1) (some hd1) [] 1 1 1 0 0 [] 1 1 none).1 = none :=
  ⟨by decide, no_estimate_without_wrists (some hd1) (some hd1) [] 1 1 1 0 0 [] 1 1 none (by decide)⟩

/-!  C6: a small decoded head mask forces the shaft fallback. -/

/-- C6. Whenever a head detection is present but its decoded mask has fewer
than 3 foreground pixels, the cascade emits no head (PCA) estimate: the
result is exactly the shaft fallback when a shaft detection passed the
threshold, and no estimate otherwise; the smoothing state is untouched. -/
theorem small_head_mask_falls_back (hd : Detection) (shaftDetection : Option Detection)
    (proto : List ℚ) (mh mw : ℕ) (scale xPadding yPadding : ℚ)
    (landmarks : List PoseLandmark) (videoW videoH : ℚ) (st : Option ℝ)
    (hmask : (decodeMaskPixels hd proto mh mw scale xPadding yPadding).length < 3) :
    detectClubCore (some hd) shaftDetection proto mh mw scale xPadding yPadding
      landmarks videoW videoH st =
      ((match shaftDetection with
        | some sd => processShaftFallback sd videoW videoH landmarks scale xPadding yPadding
        | none => none), st) := by
  have hpm : processMask hd proto mh mw scale xPadding yPadding landmarks videoW videoH st =
      (none, st) := by
    unfold processMask
    dsimp only
    split_ifs with h1 h2 h3
    any_goals rfl
  unfold detectClubCore
  dsimp only
  rw [hpm]
  cases shaftDetection with
  | none => rfl
  | some sd => rfl

/-- Witness for C6: a head detection with an empty rounded box decodes to
an empty mask and the cascade yields no estimate when no shaft detection
exists. -/
theorem small_head_mask_falls_back_witness :
    (decodeMaskPixels hd0 [] 1 1 1 0 0).length < 3 ∧
    detectClubCore (some hd0) none [] 1 1 1 0 0 [] 1 1 none = (none, none) := by
  have hmask : decodeMaskPixels hd0 [] 1 1 1 0 0 = [] := by
    unfold decodeMaskPixels roundedBox hd0 jsRoundQ
    norm_num
  refine ⟨by rw [hmask]; decide, ?_⟩
  rw [small_head_mask_falls_back hd0 none [] 1 1 1 0 0 [] 1 1 none (by rw [hmask]; decide)]

/-!  C8: the smoothing state persists across sessions. -/

/-- C8 is violated by the code: lastAngle is a module-level variable that
is never reset, and this theorem evaluates the consequence. A session that
ends with resolved angle 180 makes the first head estimate of the next
session with disambiguated raw angle 0 come out as 126 = 180 + 0.3 * (-180)
instead of the 0 a fresh session would produce. -/
theorem smoothing_state_bleeds_across_sessions :
    emaUpdate (some 180) 0 = 126 ∧ emaUpdate none 0 = 0 ∧ (126 : ℝ) ≠ 0 := by
  refine ⟨?_, rfl, by norm_num⟩
  show smoothStep 180 0 = 126
  unfold smoothStep wrapDelta normalizeAngle
  norm_num

/-- Every estimate emitted by the shaft fallback carries a direct atan2
angle in degrees, hence lies in [-180, 180]. -/
theorem processShaftFallback_angle_mem (detection : Detection) (videoW videoH : ℚ)
    (landmarks : List PoseLandmark) (scale xPadding yPadding : ℚ) :
    ∀ e ∈ processShaftFallback detection videoW videoH landmarks scale xPadding yPadding,
      -180 ≤ e.angle ∧ e.angle ≤ 180 := by
  intro e he
  unfold processShaftFallback at he
  split_ifs at he with h
  · simp at he
  · dsimp only at he
    rw [Option.mem_def, Option.some_inj] at he
    subst he
    exact ⟨le_of_lt (atan2_deg_mem _ _).1, (atan2_deg_mem _ _).2⟩

/-- Angle bounds for processMask: under the state invariant, any emitted
estimate and the updated state stay in [-180, 180]. -/
theorem processMask_bounds (detection : Detection) (proto : List ℚ) (mh mw : ℕ)
    (scale xPadding yPadding : ℚ) (landmarks : List PoseLandmark)
    (videoW videoH : ℚ) (st : Option ℝ)
    (hst : ∀ a ∈ st, -180 ≤ a ∧ a ≤ 180) :
    (∀ e ∈ (processMask detection proto mh mw scale xPadding yPadding landmarks
        videoW videoH st).1, -180 ≤ e.angle ∧ e.angle ≤ 180) ∧
    (∀ a ∈ (processMask detection proto mh mw scale xPadding yPadding landmarks
        videoW videoH st).2, -180 ≤ a ∧ a ≤ 180) := by
  unfold processMask
  dsimp only
  by_cases h1 : (roundedBox detection.box).x2 ≤ (roundedBox detection.box).x1 ∨
      (roundedBox detection.box).y2 ≤ (roundedBox detection.box).y1
  · rw [if_pos h1]
    exact ⟨by simp, hst⟩
  · rw [if_neg h1]
    by_cases h2 : landmarks.length ≤ 16
    · rw [if_pos h2]
      exact ⟨by simp, hst⟩
    · rw [if_neg h2]
      by_cases h3 : (decodeMaskPixels detection proto mh mw scale xPadding yPadding).length < 3
      · rw [if_pos h3]
        exact ⟨by simp, hst⟩
      · rw [if_neg h3, if_pos (by omega : 16 < landmarks.length)]
        obtain ⟨hr1, hr2⟩ := pca_deg_mem
          ((decodeMaskPixels detection proto mh mw scale xPadding yPadding).map
            fun p => ((p.1 : ℝ), (p.2 : ℝ)))
        have hf1 := normalizeAngle_mem
          (if 90 <
              (if 180 <
                  |(computePCA ((decodeMaskPixels detection proto mh mw scale xPadding
                      yPadding).map fun p => ((p.1 : ℝ), (p.2 : ℝ)))).1 * (180 / Real.pi) -
                    atan2
                      ((computePCA ((decodeMaskPixels detection proto mh mw scale xPadding
                          yPadding).map fun p => ((p.1 : ℝ), (p.2 : ℝ)))).2.2 -
                        ((((landmarks.getD 15 default).y + (landmarks.getD 16 default).y) / 2 *
                          videoH : ℚ) : ℝ))
                      ((computePCA ((decodeMaskPixels detection proto mh mw scale xPadding
                          yPadding).map fun p => ((p.1 : ℝ), (p.2 : ℝ)))).2.1 -
                        ((((landmarks.getD 15 default).x + (landmarks.getD 16 default).x) / 2 *
                          videoW : ℚ) : ℝ)) * (180 / Real.pi)| then
                360 -
                  |(computePCA ((decodeMaskPixels detection proto mh mw scale xPadding
                      yPadding).map fun p => ((p.1 : ℝ), (p.2 : ℝ)))).1 * (180 / Real.pi) -
                    atan2
                      ((computePCA ((decodeMaskPixels detection proto mh mw scale xPadding
                          yPadding).map fun p => ((p.1 : ℝ), (p.2 : ℝ)))).2.2 -
                        ((((landmarks.getD 15 default).y + (landmarks.getD 16 default).y) / 2 *
                          videoH : ℚ) : ℝ))
                      ((computePCA ((decodeMaskPixels detection proto mh mw scale xPadding
                          yPadding).map fun p => ((p.1 : ℝ), (p.2 : ℝ)))).2.1 -
                        ((((landmarks.getD 15 default).x + (landmarks.getD 16 default).x) / 2 *
                          videoW : ℚ) : ℝ)) * (180 / Real.pi)|
              else
                |(computePCA ((decodeMaskPixels detection proto mh mw scale xPadding
                    yPadding).map fun p => ((p.1 : ℝ), (p.2 : ℝ)))).1 * (180 / Real.pi) -
                  atan2
                    ((computePCA ((decodeMaskPixels detection proto mh mw scale xPadding
                        yPadding).map fun p => ((p.1 : ℝ), (p.2 : ℝ)))).2.2 -
                      ((((landmarks.getD 15 default).y + (landmarks.getD 16 default).y) / 2 *
                        videoH : ℚ) : ℝ))
                    ((computePCA ((decodeMaskPixels detection proto mh mw scale xPadding
                        yPadding).map fun p => ((p.1 : ℝ), (p.2 : ℝ)))).2.1 -
                      ((((landmarks.getD 15 default).x + (landmarks.getD 16 default).x) / 2 *
                        videoW : ℚ) : ℝ)) * (180 / Real.pi)|) then
            (computePCA ((decodeMaskPixels detection proto mh mw scale xPadding
              yPadding).map fun p => ((p.1 : ℝ), (p.2 : ℝ)))).1 * (180 / Real.pi) + 180
          else
            (computePCA ((decodeMaskPixels detection proto mh mw scale xPadding
              yPadding).map fun p => ((p.1 : ℝ), (p.2 : ℝ)))).1 * (180 / Real.pi))
          (by split_ifs <;> linarith) (by split_ifs <;> linarith)
        obtain ⟨he1, he2⟩ := emaUpdate_mem st _ hst hf1.1 hf1.2
        constructor
        · intro e he
          rw [Option.mem_def, Option.some_inj] at he
          subst he
          exact ⟨he1, he2⟩
        · intro a ha
          rw [Option.mem_def, Option.some_inj] at ha
          subst ha
          exact ⟨he1, he2⟩

/-!  C9: every emitted club angle is in the signed [-180, 180] range. -/

/-- C9. Under the state invariant that any stored last angle is in
[-180, 180] (true initially, when the state is empty, and preserved by
every call, as the second conjunct shows), every ClubEstimate the cascade
emits has its angle in [-180, 180]: the shaft fallback angle is a direct
atan2 in degrees and the head-path angle is renormalized after
disambiguation and after smoothing. -/
theorem club_estimate_angle_range (headDetection shaftDetection : Option Detection)
    (proto : List ℚ) (mh mw : ℕ) (scale xPadding yPadding : ℚ)
    (landmarks : List PoseLandmark) (videoW videoH : ℚ) (st : Option ℝ)
    (hst : ∀ a ∈ st, -180 ≤ a ∧ a ≤ 180) :
    (∀ e ∈ (detectClubCore headDetection shaftDetection proto mh mw scale xPadding
        yPadding landmarks videoW videoH st).1, -180 ≤ e.angle ∧ e.angle ≤ 180) ∧
    (∀ a ∈ (detectClubCore headDetection shaftDetection proto mh mw scale xPadding
        yPadding landmarks videoW videoH st).2, -180 ≤ a ∧ a ≤ 180) := by
  unfold detectClubCore
  cases headDetection with
  | none =>
    cases shaftDetection with
    | none => exact ⟨by simp, hst⟩
    | some sd =>
      exact ⟨processShaftFallback_angle_mem sd videoW videoH landmarks scale xPadding
        yPadding, hst⟩
  | some hd =>
    obtain ⟨hpm1, hpm2⟩ := processMask_bounds hd proto mh mw scale xPadding yPadding
      landmarks videoW videoH st hst
    dsimp only
    rcases hr : (processMask hd proto mh mw scale xPadding yPadding landmarks
        videoW videoH st).1 with _ | res
    · dsimp only
      cases shaftDetection with
      | none => exact ⟨by simp, hpm2⟩
      | some sd =>
        exact ⟨processShaftFallback_angle_mem sd videoW videoH landmarks scale xPadding
          yPadding, hpm2⟩
    · dsimp only
      refine ⟨?_, hpm2⟩
      intro e he
      rw [Option.mem_def, Option.some_inj] at he
      subst he
      exact hpm1 res (by rw [hr]; rfl)

/-- Witness for C9 at the empty state with a shaft detection and a full
wrist landmark set: the cascade provably emits an estimate (the shaft
fallback always succeeds past the landmark guard), and the theorem bounds
the emitted angle. -/
theorem club_estimate_angle_range_witness :
    (∀ a ∈ (none : Option ℝ), (-180 : ℝ) ≤ a ∧ a ≤ 180) ∧
    (detectClubCore none (some hd1) [] 1 1 1 0 0 lms17 2 2 none).1 ≠ none ∧
    (∀ e ∈ (detectClubCore none (some hd1) [] 1 1 1 0 0 lms17 2 2 none).1,
      -180 ≤ e.angle ∧ e.angle ≤ 180) := by
  refine ⟨by simp, ?_,
    (club_estimate_angle_range none (some hd1) [] 1 1 1 0 0 lms17 2 2 none (by simp)).1⟩
  show processShaftFallback hd1 2 2 lms17 1 0 0 ≠ none
  unfold processShaftFallback
  rw [if_neg (by decide : ¬ lms17.length ≤ 16)]
  dsimp only
  exact Option.some_ne_none _

/-!  C5: the EMA smoothing step. -/

/-- The wraparound adjustment changes its input by an integer number of
full turns. -/
theorem wrapDelta_rep (x : ℝ) : ∃ k : ℤ, wrapDelta x = x + 360 * k := by
  unfold wrapDelta
  split_ifs
  · exact ⟨-1, by push_cast; ring⟩
  · exact ⟨1, by push_cast; ring⟩
  · exact ⟨0, by push_cast; ring⟩

/-- The renormalization changes its input by an integer number of full
turns. -/
theorem normalizeAngle_rep (a : ℝ) : ∃ k : ℤ, normalizeAngle a = a + 360 * k := by
  unfold normalizeAngle
  split_ifs
  · exact ⟨-1, by push_cast; ring⟩
  · exact ⟨1, by push_cast; ring⟩
  · exact ⟨0, by push_cast; ring⟩

/-- On inputs within one turn, the wraparound adjustment recovers the unique
representative of magnitude below 180. -/
theorem wrapDelta_eq_of_rep (x t : ℝ) (hx1 : -360 ≤ x) (hx2 : x ≤ 360)
    (ht : |t| < 180) (k : ℤ) (hrep : x = t + 360 * k) : wrapDelta x = t := by
  obtain ⟨ht1, ht2⟩ := abs_lt.1 ht
  have hk1 : (k : ℝ) < 3/2 := by
    nlinarith
  have hk2 : (-3/2 : ℝ) < k := by
    nlinarith
  have hk1i : k ≤ 1 := by
    have : (k : ℝ) < 2 := by linarith
    exact_mod_cast Int.lt_add_one_iff.mp (by exact_mod_cast this)
  have hk2i : -1 ≤ k := by
    have : (-2 : ℝ) < k := by linarith
    have h2 : (-2 : ℤ) < k := by exact_mod_cast this
    omega
  interval_cases k
  · unfold wrapDelta
    rw [show (((-1 : ℤ) : ℝ)) = -1 by norm_num] at hrep
    split_ifs <;> linarith
  · unfold wrapDelta
    rw [show (((0 : ℤ) : ℝ)) = 0 by norm_num] at hrep
    split_ifs <;> linarith
  · unfold wrapDelta
    rw [show (((1 : ℤ) : ℝ)) = 1 by norm_num] at hrep
    split_ifs <;> linarith

/-- The wraparound adjustment is odd on inputs within one turn. -/
theorem wrapDelta_neg (x : ℝ) (hx1 : -360 ≤ x) (hx2 : x ≤ 360) :
    wrapDelta (-x) = -wrapDelta x := by
  unfold wrapDelta
  split_ifs <;> linarith

/-- One smoothing step: the wraparound delta to the raw angle contracts by
the factor 0.7, the emitted angle moves by exactly 0.3 times the shortest
angular distance, and the [-180, 180] range is preserved. -/
theorem smoothStep_delta (la raw : ℝ) (hla1 : -180 ≤ la) (hla2 : la ≤ 180)
    (hr1 : -180 ≤ raw) (hr2 : raw ≤ 180) :
    wrapDelta (raw - smoothStep la raw) = (7/10) * wrapDelta (raw - la) ∧
    angDist (smoothStep la raw) la ≤ (3/10) * angDist raw la := by
  set d := wrapDelta (raw - la) with hd
  obtain ⟨hd1, hd2⟩ := wrapDelta_mem (raw - la) (by linarith) (by linarith)
  rw [← hd] at hd1 hd2
  obtain ⟨k0, hk0⟩ := wrapDelta_rep (raw - la)
  rw [← hd] at hk0
  obtain ⟨k1, hk1⟩ := normalizeAngle_rep (la + d * (3/10))
  have hsm : smoothStep la raw = la + d * (3/10) + 360 * k1 := by
    rw [smoothStep, ← hd]
    exact hk1
  obtain ⟨hs1, hs2⟩ := smoothStep_mem la raw hla1 hla2 hr1 hr2
  constructor
  · apply wrapDelta_eq_of_rep (raw - smoothStep la raw) ((7/10) * d)
      (by linarith) (by linarith)
      (by rw [abs_mul]; rw [abs_of_pos (by norm_num : (0:ℝ) < 7/10)]
          have := abs_le.2 ⟨hd1, hd2⟩
          nlinarith [abs_nonneg d])
      (-(k0 + k1))
    rw [hsm, hk0]
    push_cast
    ring
  · have hweq : wrapDelta (smoothStep la raw - la) = (3/10) * d := by
      apply wrapDelta_eq_of_rep (smoothStep la raw - la) ((3/10) * d)
        (by linarith) (by linarith)
        (by rw [abs_mul]; rw [abs_of_pos (by norm_num : (0:ℝ) < 3/10)]
            have := abs_le.2 ⟨hd1, hd2⟩
            nlinarith [abs_nonneg d])
        k1
      rw [hsm]
      push_cast
      ring
    unfold angDist
    rw [hweq, ← hd, abs_mul, abs_of_pos (by norm_num : (0:ℝ) < 3/10)]

/-- Iterating the smoothing step on a fixed raw angle contracts the
wraparound delta geometrically and stays in range. -/
theorem smoothIter_delta (raw : ℝ) (hr1 : -180 ≤ raw) (hr2 : raw ≤ 180) :
    ∀ (k : ℕ) (la : ℝ), -180 ≤ la → la ≤ 180 →
      (-180 ≤ (fun l => smoothStep l raw)^[k] la ∧
        (fun l => smoothStep l raw)^[k] la ≤ 180) ∧
      wrapDelta (raw - (fun l => smoothStep l raw)^[k] la) =
        (7/10) ^ k * wrapDelta (raw - la) := by
  intro k
  induction k with
  | zero =>
    intro la h1 h2
    simp
    exact ⟨h1, h2⟩
  | succ n ih =>
    intro la h1 h2
    rw [Function.iterate_succ_apply]
    obtain ⟨hs1, hs2⟩ := smoothStep_mem la raw h1 h2 hr1 hr2
    obtain ⟨hmem, hdelta⟩ := ih (smoothStep la raw) hs1 hs2
    refine ⟨hmem, ?_⟩
    rw [hdelta, (smoothStep_delta la raw h1 h2 hr1 hr2).1]
    ring

/-- C5. One EMA step never moves the resolved angle by more than 0.3 times
the shortest wraparound-aware angular distance between the previous
resolved angle and the new disambiguated raw angle; and feeding the same
raw angle repeatedly drives the smoothed angle to that raw value at the
uniform geometric rate 0.7 per frame: for every tolerance there is a frame
count after which the angular distance to the raw value stays below it. -/
theorem ema_smoothing_contraction (la raw : ℝ)
    (hla1 : -180 ≤ la) (hla2 : la ≤ 180) (hr1 : -180 ≤ raw) (hr2 : raw ≤ 180) :
    angDist (smoothStep la raw) la ≤ (3/10) * angDist raw la ∧
    ∀ ε : ℝ, 0 < ε → ∃ N : ℕ, ∀ k, N ≤ k →
      angDist ((fun l => smoothStep l raw)^[k] la) raw ≤ ε := by
  refine ⟨(smoothStep_delta la raw hla1 hla2 hr1 hr2).2, ?_⟩
  intro ε hε
  obtain ⟨N, hN⟩ := exists_pow_lt_of_lt_one (div_pos hε (by norm_num : (0:ℝ) < 180))
    (by norm_num : (7/10 : ℝ) < 1)
  refine ⟨N, fun k hk => ?_⟩
  obtain ⟨⟨hi1, hi2⟩, hdelta⟩ := smoothIter_delta raw hr1 hr2 k la hla1 hla2
  have hsym : angDist ((fun l => smoothStep l raw)^[k] la) raw =
      |wrapDelta (raw - (fun l => smoothStep l raw)^[k] la)| := by
    unfold angDist
    rw [show (fun l => smoothStep l raw)^[k] la - raw =
      -(raw - (fun l => smoothStep l raw)^[k] la) by ring]
    rw [wrapDelta_neg _ (by linarith) (by linarith), abs_neg]
  rw [hsym, hdelta]
  obtain ⟨hd1, hd2⟩ := wrapDelta_mem (raw - la) (by linarith) (by linarith)
  have habs : |wrapDelta (raw - la)| ≤ 180 := abs_le.2 ⟨hd1, hd2⟩
  have hpow : ((7:ℝ)/10) ^ k ≤ (7/10) ^ N :=
    pow_le_pow_of_le_one (by norm_num) (by norm_num) hk
  have hpk : (0:ℝ) ≤ (7/10 : ℝ) ^ k := by positivity
  rw [abs_mul, abs_of_nonneg hpk]
  calc (7/10 : ℝ) ^ k * |wrapDelta (raw - la)| ≤ (7/10) ^ N * 180 := by
        apply mul_le_mul hpow habs (abs_nonneg _) (by positivity)
  _ ≤ ε / 180 * 180 := by nlinarith
  _ = ε := by field_simp

/-- Witness for C5 at previous angle 0 and raw angle 90. -/
theorem ema_smoothing_contraction_witness :
    ((-180 : ℝ) ≤ 0 ∧ (0 : ℝ) ≤ 180 ∧ (-180 : ℝ) ≤ 90 ∧ (90 : ℝ) ≤ 180) ∧
    (angDist (smoothStep 0 90) 0 ≤ (3/10) * angDist 90 0 ∧
      ∀ ε : ℝ, 0 < ε → ∃ N : ℕ, ∀ k, N ≤ k →
        angDist ((fun l => smoothStep l 90)^[k] 0) 90 ≤ ε) :=
  ⟨⟨by norm_num, by norm_num, by norm_num, by norm_num⟩,
    ema_smoothing_contraction 0 90 (by norm_num) (by norm_num) (by norm_num) (by norm_num)⟩

/-!  C4: PCA invariance and equivariance. -/

/-- Sums of mapped pointwise sums split. -/
theorem listSumMapAdd {α : Type} (l : List α) (f g : α → ℝ) :
    (l.map fun a => f a + g a).sum = (l.map f).sum + (l.map g).sum := by
  induction l with
  | nil => simp
  | cons x xs ih => simp [ih]; ring

/-- Sums of mapped constants. -/
theorem listSumMapConst {α : Type} (l : List α) (c : ℝ) :
    (l.map fun _ => c).sum = l.length * c := by
  induction l with
  | nil => simp
  | cons x xs ih =>
    simp [ih]
    push_cast
    ring

/-- Sums of mapped linear combinations of three functions. -/
theorem listSumMapComb {α : Type} (l : List α) (f g h : α → ℝ) (a b e : ℝ) :
    (l.map fun p => a * f p + b * g p + e * h p).sum =
      a * (l.map f).sum + b * (l.map g).sum + e * (l.map h).sum := by
  induction l with
  | nil => simp
  | cons x xs ih => simp [ih]; ring

/-- The coordinate sums recover the means times the length. -/
theorem sum_fst_eq (pts : List (ℝ × ℝ)) (hne : pts ≠ []) :
    (pts.map Prod.fst).sum = pts.length * meanX pts := by
  have hn : (pts.length : ℝ) ≠ 0 := by
    simpa using fun h => hne (List.length_eq_zero.1 h)
  unfold meanX
  field_simp

/-- The second coordinate sum recovers the mean times the length. -/
theorem sum_snd_eq (pts : List (ℝ × ℝ)) (hne : pts ≠ []) :
    (pts.map Prod.snd).sum = pts.length * meanY pts := by
  have hn : (pts.length : ℝ) ≠ 0 := by
    simpa using fun h => hne (List.length_eq_zero.1 h)
  unfold meanY
  field_simp

/-- Translating all points translates the x mean. -/
theorem meanX_translate (pts : List (ℝ × ℝ)) (v : ℝ × ℝ) (hne : pts ≠ []) :
    meanX (pts.map (translatePt v)) = meanX pts + v.1 := by
  have hn : (pts.length : ℝ) ≠ 0 := by
    simpa using fun h => hne (List.length_eq_zero.1 h)
  unfold meanX
  rw [List.map_map, List.length_map]
  have hfun : (Prod.fst ∘ translatePt v) = fun p : ℝ × ℝ => p.1 + v.1 := by
    funext p
    simp [translatePt]
  rw [hfun, listSumMapAdd pts (fun p => p.1) (fun _ => v.1), listSumMapConst]
  field_simp
  ring

/-- Translating all points translates the y mean. -/
theorem meanY_translate (pts : List (ℝ × ℝ)) (v : ℝ × ℝ) (hne : pts ≠ []) :
    meanY (pts.map (translatePt v)) = meanY pts + v.2 := by
  have hn : (pts.length : ℝ) ≠ 0 := by
    simpa using fun h => hne (List.length_eq_zero.1 h)
  unfold meanY
  rw [List.map_map, List.length_map]
  have hfun : (Prod.snd ∘ translatePt v) = fun p : ℝ × ℝ => p.2 + v.2 := by
    funext p
    simp [translatePt]
  rw [hfun, listSumMapAdd pts (fun p => p.2) (fun _ => v.2), listSumMapConst]
  field_simp
  ring

/-- The centered covariance entries are translation invariant. -/
theorem covXX_translate (pts : List (ℝ × ℝ)) (v : ℝ × ℝ) (hne : pts ≠ []) :
    covXX (pts.map (translatePt v)) = covXX pts := by
  unfold covXX
  rw [meanX_translate pts v hne, List.map_map, List.length_map]
  have hfun : ((fun p : ℝ × ℝ => (p.1 - (meanX pts + v.1)) ^ 2) ∘ translatePt v) =
      fun p : ℝ × ℝ => (p.1 - meanX pts) ^ 2 := by
    funext p
    simp [translatePt]
  rw [hfun]

/-- The centered covariance entries are translation invariant. -/
theorem covYY_translate (pts : List (ℝ × ℝ)) (v : ℝ × ℝ) (hne : pts ≠ []) :
    covYY (pts.map (translatePt v)) = covYY pts := by
  unfold covYY
  rw [meanY_translate pts v hne, List.map_map, List.length_map]
  have hfun : ((fun p : ℝ × ℝ => (p.2 - (meanY pts + v.2)) ^ 2) ∘ translatePt v) =
      fun p : ℝ × ℝ => (p.2 - meanY pts) ^ 2 := by
    funext p
    simp [translatePt]
  rw [hfun]

/-- The centered covariance entries are translation invariant. -/
theorem covXY_translate (pts : List (ℝ × ℝ)) (v : ℝ × ℝ) (hne : pts ≠ []) :
    covXY (pts.map (translatePt v)) = covXY pts := by
  unfold covXY
  rw [meanX_translate pts v hne, meanY_translate pts v hne, List.map_map, List.length_map]
  have hfun : ((fun p : ℝ × ℝ => (p.1 - (meanX pts + v.1)) * (p.2 - (meanY pts + v.2))) ∘
      translatePt v) = fun p : ℝ × ℝ => (p.1 - meanX pts) * (p.2 - meanY pts) := by
    funext p
    simp [translatePt]
  rw [hfun]

/-- Rotation about the centroid fixes the x mean. -/
theorem meanX_rotate (pts : List (ℝ × ℝ)) (c s : ℝ) (hne : pts ≠ []) :
    meanX (pts.map (rotatePtAbout c s (meanX pts, meanY pts))) = meanX pts := by
  have hn : (pts.length : ℝ) ≠ 0 := by
    simpa using fun h => hne (List.length_eq_zero.1 h)
  rw [meanX]
  rw [List.map_map, List.length_map]
  have hfun : (Prod.fst ∘ rotatePtAbout c s (meanX pts, meanY pts)) =
      fun p : ℝ × ℝ => c * p.1 + (-s) * p.2 +
        (meanX pts - c * meanX pts + s * meanY pts) * 1 := by
    funext p
    simp [rotatePtAbout]
    ring
  rw [hfun, listSumMapComb pts (fun p => p.1) (fun p => p.2) (fun _ => 1)]
  rw [show (pts.map fun p : ℝ × ℝ => p.1) = pts.map Prod.fst from rfl,
      show (pts.map fun p : ℝ × ℝ => p.2) = pts.map Prod.snd from rfl,
      sum_fst_eq pts hne, sum_snd_eq pts hne, listSumMapConst]
  unfold meanX meanY
  field_simp
  ring

/-- Rotation about the centroid fixes the y mean. -/
theorem meanY_rotate (pts : List (ℝ × ℝ)) (c s : ℝ) (hne : pts ≠ []) :
    meanY (pts.map (rotatePtAbout c s (meanX pts, meanY pts))) = meanY pts := by
  have hn : (pts.length : ℝ) ≠ 0 := by
    simpa using fun h => hne (List.length_eq_zero.1 h)
  rw [meanY]
  rw [List.map_map, List.length_map]
  have hfun : (Prod.snd ∘ rotatePtAbout c s (meanX pts, meanY pts)) =
      fun p : ℝ × ℝ => s * p.1 + c * p.2 +
        (meanY pts - s * meanX pts - c * meanY pts) * 1 := by
    funext p
    simp [rotatePtAbout]
    ring
  rw [hfun, listSumMapComb pts (fun p => p.1) (fun p => p.2) (fun _ => 1)]
  rw [show (pts.map fun p : ℝ × ℝ => p.1) = pts.map Prod.fst from rfl,
      show (pts.map fun p : ℝ × ℝ => p.2) = pts.map Prod.snd from rfl,
      sum_fst_eq pts hne, sum_snd_eq pts hne, listSumMapConst]
  unfold meanX meanY
  field_simp

/-- Covariance transformation of cov(x, x) under rotation about the
centroid. -/
theorem covXX_rotate (pts : List (ℝ × ℝ)) (c s : ℝ) (hne : pts ≠ []) :
    covXX (pts.map (rotatePtAbout c s (meanX pts, meanY pts))) =
      c ^ 2 * covXX pts - 2 * c * s * covXY pts + s ^ 2 * covYY pts := by
  have hn : (pts.length : ℝ) ≠ 0 := by
    simpa using fun h => hne (List.length_eq_zero.1 h)
  unfold covXX
  rw [meanX_rotate pts c s hne, List.map_map, List.length_map]
  have hfun : ((fun p : ℝ × ℝ => (p.1 - meanX pts) ^ 2) ∘
      rotatePtAbout c s (meanX pts, meanY pts)) =
      fun p : ℝ × ℝ => c ^ 2 * ((p.1 - meanX pts) ^ 2) +
        (-(2 * c * s)) * ((p.1 - meanX pts) * (p.2 - meanY pts)) +
        s ^ 2 * ((p.2 - meanY pts) ^ 2) := by
    funext p
    simp [rotatePtAbout]
    ring
  rw [hfun, listSumMapComb]
  unfold covXY covYY
  field_simp
  ring

/-- Covariance transformation of cov(y, y) under rotation about the
centroid. -/
theorem covYY_rotate (pts : List (ℝ × ℝ)) (c s : ℝ) (hne : pts ≠ []) :
    covYY (pts.map (rotatePtAbout c s (meanX pts, meanY pts))) =
      s ^ 2 * covXX pts + 2 * c * s * covXY pts + c ^ 2 * covYY pts := by
  have hn : (pts.length : ℝ) ≠ 0 := by
    simpa using fun h => hne (List.length_eq_zero.1 h)
  unfold covYY
  rw [meanY_rotate pts c s hne, List.map_map, List.length_map]
  have hfun : ((fun p : ℝ × ℝ => (p.2 - meanY pts) ^ 2) ∘
      rotatePtAbout c s (meanX pts, meanY pts)) =
      fun p : ℝ × ℝ => s ^ 2 * ((p.1 - meanX pts) ^ 2) +
        (2 * c * s) * ((p.1 - meanX pts) * (p.2 - meanY pts)) +
        c ^ 2 * ((p.2 - meanY pts) ^ 2) := by
    funext p
    simp [rotatePtAbout]
    ring
  rw [hfun, listSumMapComb]
  unfold covXX covXY
  field_simp

/-- Covariance transformation of cov(x, y) under rotation about the
centroid. -/
theorem covXY_rotate (pts : List (ℝ × ℝ)) (c s : ℝ) (hne : pts ≠ []) :
    covXY (pts.map (rotatePtAbout c s (meanX pts, meanY pts))) =
      c * s * (covXX pts - covYY pts) + (c ^ 2 - s ^ 2) * covXY pts := by
  have hn : (pts.length : ℝ) ≠ 0 := by
    simpa using fun h => hne (List.length_eq_zero.1 h)
  unfold covXY
  rw [meanX_rotate pts c s hne, meanY_rotate pts c s hne, List.map_map, List.length_map]
  have hfun : ((fun p : ℝ × ℝ => (p.1 - meanX pts) * (p.2 - meanY pts)) ∘
      rotatePtAbout c s (meanX pts, meanY pts)) =
      fun p : ℝ × ℝ => (c * s) * ((p.1 - meanX pts) ^ 2) +
        (c ^ 2 - s ^ 2) * ((p.1 - meanX pts) * (p.2 - meanY pts)) +
        (-(c * s)) * ((p.2 - meanY pts) ^ 2) := by
    funext p
    simp [rotatePtAbout]
    ring
  rw [hfun, listSumMapComb]
  unfold covXX covYY
  field_simp
  ring

/-- The covariance direction vector transforms by multiplication with the
square of the unit rotation vector. -/
theorem covVec_rotate (pts : List (ℝ × ℝ)) (c s : ℝ) (hne : pts ≠ []) :
    covVec (pts.map (rotatePtAbout c s (meanX pts, meanY pts))) =
      ((⟨c, s⟩ : ℂ) ^ 2) * covVec pts := by
  apply Complex.ext
  · simp only [covVec, covXX_rotate pts c s hne, covYY_rotate pts c s hne,
      covXY_rotate pts c s hne, pow_two, Complex.mul_re, Complex.mul_im]
    ring
  · simp only [covVec, covXX_rotate pts c s hne, covYY_rotate pts c s hne,
      covXY_rotate pts c s hne, pow_two, Complex.mul_re, Complex.mul_im]
    ring

/-- C4 (amended). For every nonempty point list, the principal axis angle
of computePCA is invariant under translating every point by a fixed
vector; and when the centered covariance is anisotropic (covVec nonzero),
rotating every point about the centroid by the angle θ with
(cos θ, sin θ) = (c, s) shifts the returned angle by θ modulo 180 degrees
(that is, modulo π in the radians computePCA returns). For an isotropic
point set the angle is pinned at atan2(0, 0) = 0, where the shift fails
(see the counterexample). -/
theorem pca_translation_rotation (pts : List (ℝ × ℝ)) (hne : pts ≠ [])
    (v : ℝ × ℝ) (c s : ℝ) (hcs : c ^ 2 + s ^ 2 = 1) :
    (computePCA (pts.map (translatePt v))).1 = (computePCA pts).1 ∧
    (covVec pts ≠ 0 →
      ∃ k : ℤ, (computePCA (pts.map (rotatePtAbout c s (meanX pts, meanY pts)))).1 =
        (computePCA pts).1 + Complex.arg ⟨c, s⟩ + k * Real.pi) := by
  have hlen : pts.length ≠ 0 := fun h => hne (List.length_eq_zero.1 h)
  constructor
  · unfold computePCA
    rw [List.length_map]
    split_ifs with h
    · rfl
    · rw [covXX_translate pts v hne, covYY_translate pts v hne, covXY_translate pts v hne]
  · intro hz
    set u : ℂ := ⟨c, s⟩ with hu
    have hune : u ≠ 0 := by
      intro h0
      have : Complex.normSq u = 0 := by rw [h0]; simp
      rw [hu, Complex.normSq_mk] at this
      nlinarith
    have hu2 : u ^ 2 ≠ 0 := pow_ne_zero 2 hune
    have hrotvec := covVec_rotate pts c s hne
    rw [← hu] at hrotvec
    have hang1 : (Complex.arg (u ^ 2 * covVec pts) : Real.Angle) =
        (Complex.arg (u ^ 2) : Real.Angle) + (Complex.arg (covVec pts) : Real.Angle) :=
      Complex.arg_mul_coe_angle hu2 hz
    have hang2 : (Complex.arg (u ^ 2) : Real.Angle) =
        (Complex.arg u : Real.Angle) + (Complex.arg u : Real.Angle) := by
      rw [pow_two]
      exact Complex.arg_mul_coe_angle hune hune
    have hang : (Complex.arg (u ^ 2 * covVec pts) : Real.Angle) =
        ((Complex.arg u + Complex.arg u + Complex.arg (covVec pts) : ℝ) : Real.Angle) := by
      rw [hang1, hang2]
      push_cast
      rw [Real.Angle.coe_add, Real.Angle.coe_add]
    obtain ⟨k, hk⟩ := Real.Angle.angle_eq_iff_two_pi_dvd_sub.mp hang
    refine ⟨k, ?_⟩
    have harg : Complex.arg (covVec (pts.map (rotatePtAbout c s (meanX pts, meanY pts)))) =
        Complex.arg (covVec pts) + 2 * Complex.arg u + 2 * Real.pi * k := by
      rw [hrotvec]
      linarith [hk]
    unfold computePCA
    rw [List.length_map]
    rw [if_neg hlen, if_neg hlen]
    have hpca : ∀ l : List (ℝ × ℝ),
        atan2 (2 * covXY l) (covXX l - covYY l) = Complex.arg (covVec l) := by
      intro l
      rfl
    rw [hpca, hpca, harg, hu]
    push_cast
    ring

/-- Counterexample to C4 as frozen: the singleton point set at the origin
is fixed by the rotation with (cos θ, sin θ) = (0, 1), that is θ = π/2 =
arg(i), yet its PCA angle is 0 before and after, so no integer multiple of
π makes the angle shift by θ. -/
theorem pca_rotation_counterexample :
    pts1.map (rotatePtAbout 0 1 (meanX pts1, meanY pts1)) = pts1 ∧
    (computePCA pts1).1 = 0 ∧
    Complex.arg ⟨0, 1⟩ = Real.pi / 2 ∧
    ∀ k : ℤ, (computePCA (pts1.map (rotatePtAbout 0 1 (meanX pts1, meanY pts1)))).1 ≠
      (computePCA pts1).1 + Complex.arg ⟨0, 1⟩ + k * Real.pi := by
  have hmx : meanX pts1 = 0 := by
    unfold meanX pts1
    norm_num
  have hmy : meanY pts1 = 0 := by
    unfold meanY pts1
    norm_num
  have hfix : pts1.map (rotatePtAbout 0 1 (meanX pts1, meanY pts1)) = pts1 := by
    rw [hmx, hmy]
    unfold pts1 rotatePtAbout
    norm_num
  have hI : (⟨0, 1⟩ : ℂ) = Complex.I := by
    simp [Complex.ext_iff]
  have hargI : Complex.arg ⟨0, 1⟩ = Real.pi / 2 := by
    rw [hI]
    exact Complex.arg_I
  have hzero : (computePCA pts1).1 = 0 := by
    unfold computePCA
    rw [if_neg (by norm_num [pts1])]
    have hxx : covXX pts1 = 0 := by
      unfold covXX
      rw [hmx]
      unfold pts1
      norm_num
    have hyy : covYY pts1 = 0 := by
      unfold covYY
      rw [hmy]
      unfold pts1
      norm_num
    have hxy : covXY pts1 = 0 := by
      unfold covXY
      rw [hmx, hmy]
      unfold pts1
      norm_num
    rw [hxx, hyy, hxy]
    norm_num [atan2]
    have h00 : ((⟨0, 0⟩ : ℂ)) = 0 := by
      simp [Complex.ext_iff]
    rw [h00, Complex.arg_zero]
  refine ⟨hfix, hzero, hargI, ?_⟩
  intro k hcontra
  rw [hfix, hzero, hargI] at hcontra
  have hpi := Real.pi_ne_zero
  have h2k : ((2 * k + 1 : ℤ) : ℝ) * Real.pi = 0 := by
    push_cast
    linarith
  have hk0 : ((2 * k + 1 : ℤ) : ℝ) = 0 := by
    rcases mul_eq_zero.mp h2k with h | h
    · exact h
    · exact absurd h hpi
  have : (2 * k + 1 : ℤ) = 0 := by exact_mod_cast hk0
  omega

/-- Witness for C4 at two points on the x axis, translation (1, 2) and
rotation by π/2. -/
theorem pca_translation_rotation_witness :
    pts2 ≠ [] ∧ ((0 : ℝ) ^ 2 + 1 ^ 2 = 1) ∧ covVec pts2 ≠ 0 ∧
    ((computePCA (pts2.map (translatePt (1, 2)))).1 = (computePCA pts2).1 ∧
      (covVec pts2 ≠ 0 →
        ∃ k : ℤ, (computePCA (pts2.map (rotatePtAbout 0 1 (meanX pts2, meanY pts2)))).1 =
          (computePCA pts2).1 + Complex.arg ⟨0, 1⟩ + k * Real.pi)) := by
  have hne : pts2 ≠ [] := by
    unfold pts2
    simp
  have hcs : (0 : ℝ) ^ 2 + 1 ^ 2 = 1 := by norm_num
  have hz : covVec pts2 ≠ 0 := by
    have hmx : meanX pts2 = 1 / 2 := by
      unfold meanX pts2
      norm_num
    have hxx : covXX pts2 = 1 / 4 := by
      unfold covXX
      rw [hmx]
      unfold pts2
      norm_num
    have hyy : covYY pts2 = 0 := by
      have hmy : meanY pts2 = 0 := by
        unfold meanY pts2
        norm_num
      unfold covYY
      rw [hmy]
      unfold pts2
      norm_num
    intro h0
    have hre : (covVec pts2).re = 0 := by rw [h0]; rfl
    unfold covVec at hre
    simp only [hxx, hyy] at hre
    norm_num at hre
  exact ⟨hne, hcs, hz, pca_translation_rotation pts2 hne (1, 2) 0 1 hcs⟩

end Golf
